import Mathlib

/-!
Verification development for the chromanode scanner (sync.js, service.js)
and the colored-coin rescanner (unnamed source file).

The JavaScript source is shallowly embedded: JS objects become Lean
structures, Postgres tables become lists of row structures, the message bus
becomes a list of `Event` values, and JS function-call semantics (missing
arguments become `undefined`) are made explicit at each call site.  SQL query
texts live in a file that is not part of the provided sources (`./sql`), so
each query's row-level effect is modelled from the specification; such
definitions carry a doc comment starting with `Modelled from the spec:`.
-/

namespace Chromanode

/-- A minimal model of JavaScript values as they appear at the service call
sites: `undefined` (a missing argument), `null`, a boolean, or an options
object possibly carrying a database client (identified by a number). -/
inductive JsValue where
  | undefined
  | null
  | boolean (b : Bool)
  | obj (client : Option Nat)
deriving DecidableEq, Repr

/-- JavaScript truthiness for the values of `JsValue`: `undefined`, `null`
and `false` are falsy; any object is truthy. -/
def jsTruthy : JsValue → Bool
  | .undefined => false
  | .null => false
  | .boolean b => b
  | .obj _ => true

/-- Reading `opts.client` from a JS value: only an object can carry a
client; `undefined`/`null`/booleans yield no client (`_.get` semantics). -/
def clientOf : JsValue → Option Nat
  | .obj c => c
  | _ => none

/-- The `err` argument of `sendTxResponse`: JavaScript distinguishes `null`,
`undefined` (omitted argument) and an error object with optional `code` and
`message` fields. -/
inductive JsErr where
  | null
  | undefined
  | err (code : Option String) (message : Option String)
deriving DecidableEq, Repr

/-- `_.get(err, 'code')`: `undefined` unless `err` is an object with the
field present. -/
def lodashGetCode : JsErr → Option String
  | .err c _ => c
  | _ => none

/-- `_.get(err, 'message')`: `undefined` unless `err` is an object with the
field present. -/
def lodashGetMessage : JsErr → Option String
  | .err _ m => m
  | _ => none

/-- The unescaped character set of the JS global `escape` function:
ASCII alphanumerics and the characters `@*_+-./`. -/
def isUnescapedChar (c : Char) : Bool :=
  c.isAlphanum || "@*_+-./".contains c

/-- Uppercase hexadecimal digit for a value below 16. -/
def hexDigitChar (n : Nat) : Char :=
  if n < 10 then Char.ofNat (48 + n) else Char.ofNat (55 + n)

/-- One character of the JS global `escape` output: kept verbatim when in
the unescaped set, `%XX` for code points below 256, `%uXXXX` otherwise. -/
def escapeChar (c : Char) : String :=
  if isUnescapedChar c then String.singleton c
  else if c.toNat < 256 then
    "%" ++ String.singleton (hexDigitChar (c.toNat / 16))
        ++ String.singleton (hexDigitChar (c.toNat % 16))
  else
    "%u" ++ String.singleton (hexDigitChar (c.toNat / 4096 % 16))
         ++ String.singleton (hexDigitChar (c.toNat / 256 % 16))
         ++ String.singleton (hexDigitChar (c.toNat / 16 % 16))
         ++ String.singleton (hexDigitChar (c.toNat % 16))

/-- The JS global `escape` applied to a string. -/
def escapeJS (s : String) : String :=
  String.join (s.toList.map escapeChar)

/-- `escape(x)` first coerces `x` to a string; an `undefined` argument
becomes the literal string "undefined" before escaping. -/
def escapeOfGet : Option String → String
  | none => escapeJS "undefined"
  | some m => escapeJS m

/-- A published bus notification, one constructor per channel of
service.js; the final field records the `opts.client` handle the `notify`
call received (`none` means the publication is not tied to any database
transaction). -/
inductive Event where
  | sendTxResponse (id : String) (status : String) (code : Option String)
      (message : String) (client : Option Nat)
  | broadcastBlock (hash : String) (height : Int) (client : Option Nat)
  | broadcastTx (txId : String) (blockHash : Option String)
      (blockHeight : Option Int) (client : Option Nat)
  | broadcastAddress (address : String) (txId : String)
      (blockHash : Option String) (blockHeight : Option Int) (client : Option Nat)
  | addTx (txId : String) (unconfirmed : Bool) (client : Option Nat)
  | removeTx (txId : String) (unconfirmed : Bool) (client : Option Nat)
  | addBlock (hash : String) (client : Option Nat)
  | removeBlock (hash : String) (client : Option Nat)
deriving DecidableEq, Repr

namespace Service

/-- service.js `sendTxResponse(id, err, opts)`: status is "success" iff
`err === null` (strict equality), code and message via `_.get`, the message
passed through `escape`. -/
def sendTxResponse (id : String) (err : JsErr) (opts : JsValue) : Event :=
  .sendTxResponse id (if err = JsErr.null then "success" else "fail")
    (lodashGetCode err) (escapeOfGet (lodashGetMessage err)) (clientOf opts)

/-- service.js `broadcastBlock(hash, height, opts)`. -/
def broadcastBlock (hash : String) (height : Int) (opts : JsValue) : Event :=
  .broadcastBlock hash height (clientOf opts)

/-- service.js `broadcastTx(txId, blockHash, blockHeight, opts)`. -/
def broadcastTx (txId : String) (blockHash : Option String)
    (blockHeight : Option Int) (opts : JsValue) : Event :=
  .broadcastTx txId blockHash blockHeight (clientOf opts)

/-- service.js `broadcastAddress(address, txId, blockHash, blockHeight, opts)`. -/
def broadcastAddress (address txId : String) (blockHash : Option String)
    (blockHeight : Option Int) (opts : JsValue) : Event :=
  .broadcastAddress address txId blockHash blockHeight (clientOf opts)

/-- service.js `addTx(txId, isConfirmed, opts)`: publishes
`addtx` with `unconfirmed = !isConfirmed`.  The second and third parameters
are kept as raw JS values because call sites in sync.js pass only two
arguments, leaving `opts` bound to `undefined`. -/
def addTx (txId : String) (isConfirmed : JsValue) (opts : JsValue) : Event :=
  .addTx txId (! jsTruthy isConfirmed) (clientOf opts)

/-- service.js `removeTx(txId, isConfirmed, opts)`: publishes
`removetx` with `unconfirmed = !isConfirmed`; same parameter convention as
`addTx`. -/
def removeTx (txId : String) (isConfirmed : JsValue) (opts : JsValue) : Event :=
  .removeTx txId (! jsTruthy isConfirmed) (clientOf opts)

/-- service.js `addBlock(hash, opts)`. -/
def addBlock (hash : String) (opts : JsValue) : Event :=
  .addBlock hash (clientOf opts)

/-- service.js `removeBlock(hash, opts)`. -/
def removeBlock (hash : String) (opts : JsValue) : Event :=
  .removeBlock hash (clientOf opts)

end Service

/-! ### Orphan registry (sync.js `_orphanedTx`, `_importOrphaned`)

The JS object maps `deps : txid -> txid[]` and `orphans : txid -> txid[]`
are modelled as total functions into lists; `delete m[k]` is modelled as
setting the entry to `[]`.  The source never stores an empty list (orphans
entries are created by `_.union(prev, [txid])`, deps entries only when
nonempty), so an absent key and an empty entry are observationally
equivalent; in particular the `orphans[txid] === undefined` early return of
`_importOrphaned` corresponds to the empty-list check. -/

/-- The in-memory orphan registry of sync.js: `deps` maps an orphaned child
to its missing parents, `orphans` maps a missing parent to the children
waiting on it. -/
structure OrphanedTxState where
  deps : String → List String
  orphans : String → List String

/-- Point update of a JS-object-as-map. -/
def updateMap (m : String → List String) (k : String) (v : List String) :
    String → List String :=
  fun x => if x = k then v else m x

/-- lodash `_.union(a, b)`: `a` followed by the members of `b` not already
present. -/
def lodashUnion (a b : List String) : List String :=
  a ++ b.filter (fun y => ! decide (y ∈ a))

/-- lodash `_.without(l, x)`: every element of `l` other than `x`. -/
def lodashWithout (l : List String) (x : String) : List String :=
  l.filter (fun y => ! (y == x))

/-- Orphan registration, sync.js lines 141-144: `deps[txid] = ds` and, for
each parent in `ds`, `orphans[dep] = _.union(orphans[dep], [txid])`. -/
def registerOrphan (s : OrphanedTxState) (txid : String) (ds : List String) :
    OrphanedTxState :=
  { deps := updateMap s.deps txid ds
    orphans := ds.foldl
      (fun m dep => updateMap m dep (lodashUnion (m dep) [txid])) s.orphans }

/-- One iteration of the `_importOrphaned` loop body for child `orphaned`:
drop `txid` from its deps; if deps remain, store them back, otherwise
delete the entry and schedule the child for import. -/
def importOrphanedStep (txid : String) (acc : OrphanedTxState × List String)
    (orphaned : String) : OrphanedTxState × List String :=
  let ds := lodashWithout (acc.1.deps orphaned) txid
  if ds.length > 0 then
    ({ acc.1 with deps := updateMap acc.1.deps orphaned ds }, acc.2)
  else
    ({ acc.1 with deps := updateMap acc.1.deps orphaned [] }, acc.2 ++ [orphaned])

/-- sync.js `_importOrphaned(txid)`: look up the children waiting on
`txid`; if none, do nothing; otherwise delete `orphans[txid]` and process
every child.  Also returns the list of children scheduled for re-import
(the `setImmediate(this._runTxImport, orphaned)` calls). -/
def importOrphaned (s : OrphanedTxState) (txid : String) :
    OrphanedTxState × List String :=
  let children := s.orphans txid
  if children = [] then (s, [])
  else
    let s1 : OrphanedTxState := { s with orphans := updateMap s.orphans txid [] }
    children.foldl (importOrphanedStep txid) (s1, [])

/-- The symmetry invariant of the orphan registry: a child is listed under a
parent in `orphans` exactly when that parent is listed in the child's
`deps`. -/
def OrphanSym (s : OrphanedTxState) : Prop :=
  ∀ c p : String, c ∈ s.orphans p ↔ p ∈ s.deps c

/-- The empty orphan registry (constructor state of sync.js). -/
def emptyOrphanState : OrphanedTxState :=
  { deps := fun _ => [], orphans := fun _ => [] }

/-! ### Core data model (the scanner's Postgres tables)

The SQL texts live in `./sql`, which is not among the provided sources, so
every query's row-level effect below is modelled from the specification's
data model and algorithm descriptions. -/

/-- A transaction input: previous output reference. -/
structure TxInput where
  prevTxId : String
  outputIndex : Nat
deriving DecidableEq, Repr

/-- A transaction output.  Address extraction (`script2addresses`) is an
external component (spec section 4.5), so the extracted address list is
carried directly. -/
structure TxOutput where
  addresses : List String
  satoshis : Nat
  script : String
deriving DecidableEq, Repr

/-- A bitcore transaction as the importers consume it. -/
structure Tx where
  txid : String
  raw : String
  inputs : List TxInput
  outputs : List TxOutput
deriving DecidableEq, Repr

/-- A row of the `transactions` table; `height = none` means unconfirmed. -/
structure TxRow where
  txid : String
  raw : String
  height : Option Int
deriving DecidableEq, Repr

/-- A row of the per-address `history` table: one row per output, mutated
when the output is spent (input fields) or confirmed (height fields). -/
structure HistoryRow where
  address : String
  txid : String
  index : Nat
  value : Nat
  script : String
  height : Option Int
  inputTxId : Option String
  inputHeight : Option Int
deriving DecidableEq, Repr

/-- A row of the `blocks` table, keyed by height (spec data model). -/
structure BlockRow where
  height : Int
  hash : String
  header : String
  txids : String
deriving DecidableEq, Repr

/-- The relational store of the core scanner. -/
structure Db where
  blocks : List BlockRow
  transactions : List TxRow
  history : List HistoryRow
deriving DecidableEq, Repr

/-- The empty store. -/
def emptyDb : Db := ⟨[], [], []⟩

/-- Modelled from the spec: `ZERO_HASH` of the missing lib/const module,
the all-zero 32-byte hash in hex (glossary: coinbase prev hash is all
zeros). -/
def ZERO_HASH : String :=
  "0000000000000000000000000000000000000000000000000000000000000000"

/-- Modelled from the spec: SQL `select.transactions.exists` - whether a
transaction row with this txid exists. -/
def txExists (db : Db) (txid : String) : Bool :=
  db.transactions.any (fun t => t.txid == txid)

/-- lodash `_.uniq`, keeping first occurrences; `seen` accumulates the
values already emitted. -/
def jsUniqAux (seen : List String) : List String → List String
  | [] => []
  | x :: xs => if x ∈ seen then jsUniqAux seen xs else x :: jsUniqAux (x :: seen) xs

/-- lodash `_.uniq`. -/
def jsUniq (l : List String) : List String := jsUniqAux [] l

/-- sync.js lines 120-121: the deduplicated prev-tx ids of all inputs of a
transaction - the parent set used for locking and orphan detection.  Note:
no coinbase exclusion is performed here. -/
def prevTxIdsOf (tx : Tx) : List String :=
  jsUniq (tx.inputs.map (fun i => i.prevTxId))

/-- sync.js lines 134-137: `_.difference(prevTxIds, existing)` - the
parents that have no transaction row yet. -/
def missingParents (db : Db) (tx : Tx) : List String :=
  (prevTxIdsOf tx).filter (fun p => ! txExists db p)

/-- Modelled from the spec: SQL `update.history.addUnconfirmedInput` - on
the history rows of output `(prevTxId, outputIndex)` set
`input_txid := txid` and `input_height := null`, returning the addresses of
the touched rows. -/
def addUnconfirmedInput (db : Db) (txid prevTxId : String) (outputIndex : Nat) :
    Db × List String :=
  ({ db with history := db.history.map (fun r =>
      if r.txid == prevTxId && r.index == outputIndex then
        { r with inputTxId := some txid, inputHeight := none }
      else r) },
   (db.history.filter (fun r => r.txid == prevTxId && r.index == outputIndex)).map
     (fun r => r.address))

/-- The per-input work of `_importUnconfirmedTx` (sync.js lines 156-167):
update each spent history row and broadcast the touched addresses with the
transaction client. -/
def importUnconfInputsGo (txid : String) (c : Nat) :
    List TxInput → Db → Db × List Event
  | [], db => (db, [])
  | i :: rest, db =>
    let r1 := addUnconfirmedInput db txid i.prevTxId i.outputIndex
    let r2 := importUnconfInputsGo txid c rest r1.1
    (r2.1,
     r1.2.map (fun a => Service.broadcastAddress a txid none none
       (JsValue.obj (some c))) ++ r2.2)

/-- The per-output work of `_importUnconfirmedTx` (sync.js lines 170-184):
insert one unconfirmed history row per extracted address
(`insert.history.unconfirmedOutput`, modelled from the spec) and broadcast
it with the transaction client. -/
def importUnconfOutputsGo (txid : String) (c : Nat) :
    List (Nat × TxOutput) → Db → Db × List Event
  | [], db => (db, [])
  | p :: rest, db =>
    let db1 : Db := { db with history := db.history ++ p.2.addresses.map (fun a =>
        ⟨a, txid, p.1, p.2.satoshis, p.2.script, none, none, none⟩) }
    let ev1 := p.2.addresses.map (fun a =>
        Service.broadcastAddress a txid none none (JsValue.obj (some c)))
    let r2 := importUnconfOutputsGo txid c rest db1
    (r2.1, ev1 ++ r2.2)

/-- The outcome of one `_importUnconfirmedTx` call: the boolean the promise
resolves to, the store and orphan-registry state afterwards, and the events
published inside the call. -/
structure UnconfImportResult where
  result : Bool
  db : Db
  orph : OrphanedTxState
  events : List Event

/-- sync.js `_importUnconfirmedTx` (lines 118-203) including the trailing
`.catch` that logs and resolves `false`.  The lock is taken on
`prevTxIdsOf tx ++ [tx.txid]`.  `inj` injects a database error at the row
insertion step (after the exists and orphan checks), modelling an RPC/DB
failure inside the transaction: the transaction rolls back and the catch
handler turns it into `false`. -/
def importUnconfirmedTx (db : Db) (orph : OrphanedTxState) (tx : Tx) (c : Nat)
    (inj : Option String) : UnconfImportResult :=
  if txExists db tx.txid then ⟨true, db, orph, []⟩
  else
    let deps := missingParents db tx
    if deps.length > 0 then ⟨false, db, registerOrphan orph tx.txid deps, []⟩
    else
      match inj with
      | some _ => ⟨false, db, orph, []⟩
      | none =>
        let db1 : Db :=
          { db with transactions := db.transactions ++ [⟨tx.txid, tx.raw, none⟩] }
        let rIn := importUnconfInputsGo tx.txid c tx.inputs db1
        let rOut := importUnconfOutputsGo tx.txid c tx.outputs.enum rIn.1
        ⟨true, rOut.1, orph,
          rIn.2 ++ rOut.2
            ++ [Service.broadcastTx tx.txid none none (JsValue.obj (some c)),
                Service.addTx tx.txid (JsValue.obj (some c)) JsValue.undefined]⟩

/-! ### Block import (sync.js `_importBlock`) -/

/-- A bitcore block as `_importBlock` consumes it. -/
structure Block where
  hash : String
  header : String
  transactions : List Tx
deriving DecidableEq, Repr

/-- sync.js lines 234-236: the lock key set of `_importBlock` - all input
prev-tx ids of all transactions plus the block's txids, deduplicated.  The
coinbase prev hash is not excluded here. -/
def blockLockTxIds (block : Block) : List String :=
  jsUniq ((block.transactions.map (fun tx => tx.inputs.map (fun i => i.prevTxId))).flatten
    ++ block.transactions.map (fun tx => tx.txid))

/-- Modelled from the spec: SQL `update.transactions.makeConfirmed` - set
the height of the transaction row of `txid`. -/
def makeTxConfirmed (db : Db) (h : Int) (txid : String) : Db :=
  { db with transactions := db.transactions.map (fun t =>
      if t.txid == txid then { t with height := some h } else t) }

/-- Modelled from the spec: SQL `update.history.makeOutputConfirmed` - set
the height of the history rows produced by `txid`, returning their
addresses. -/
def makeOutputConfirmed (db : Db) (h : Int) (txid : String) : Db × List String :=
  ({ db with history := db.history.map (fun r =>
      if r.txid == txid then { r with height := some h } else r) },
   (db.history.filter (fun r => r.txid == txid)).map (fun r => r.address))

/-- The per-output insert loop of the fresh-transaction branch of
`_importBlock` (sync.js lines 280-295): insert confirmed history rows
(`insert.history.confirmedOutput`, modelled from the spec) and broadcast
each address with the transaction client. -/
def insertConfirmedOutputsGo (txid : String) (h : Int) (bhash : String) (c : Nat) :
    List (Nat × TxOutput) → Db → Db × List Event
  | [], db => (db, [])
  | p :: rest, db =>
    let db1 : Db := { db with history := db.history ++ p.2.addresses.map (fun a =>
        ⟨a, txid, p.1, p.2.satoshis, p.2.script, some h, none, none⟩) }
    let ev1 := p.2.addresses.map (fun a =>
        Service.broadcastAddress a txid (some bhash) (some h) (JsValue.obj (some c)))
    let r2 := insertConfirmedOutputsGo txid h bhash c rest db1
    (r2.1, ev1 ++ r2.2)

/-- One transaction of `_importBlock`'s transaction stage (sync.js lines
248-304): if the transaction row exists, confirm it and its outputs;
otherwise insert the confirmed row and its history rows.  Returns the
store, whether the transaction pre-existed, and the events; note the
two-argument `addTx(txid, {client})` call. -/
def importBlockTx (db : Db) (tx : Tx) (h : Int) (bhash : String) (c : Nat) :
    Db × Bool × List Event :=
  if txExists db tx.txid then
    let db1 := makeTxConfirmed db h tx.txid
    let r2 := makeOutputConfirmed db1 h tx.txid
    (r2.1, true,
     [Service.broadcastTx tx.txid (some bhash) (some h) (JsValue.obj (some c)),
      Service.addTx tx.txid (JsValue.obj (some c)) JsValue.undefined]
     ++ r2.2.map (fun a =>
          Service.broadcastAddress a tx.txid (some bhash) (some h)
            (JsValue.obj (some c))))
  else
    let db1 : Db :=
      { db with transactions := db.transactions ++ [⟨tx.txid, tx.raw, some h⟩] }
    let r2 := insertConfirmedOutputsGo tx.txid h bhash c tx.outputs.enum db1
    (r2.1, false,
     [Service.broadcastTx tx.txid (some bhash) (some h) (JsValue.obj (some c)),
      Service.addTx tx.txid (JsValue.obj (some c)) JsValue.undefined]
     ++ r2.2)

/-- The transaction stage over all of a block's transactions, collecting
the txids found to pre-exist (the `existingTx` map of sync.js). -/
def importBlockTxsGo (h : Int) (bhash : String) (c : Nat) :
    List Tx → Db → Db × List String × List Event
  | [], db => (db, [], [])
  | tx :: rest, db =>
    let r1 := importBlockTx db tx h bhash c
    let r2 := importBlockTxsGo h bhash c rest r1.1
    (r2.1, (if r1.2.1 then [tx.txid] else []) ++ r2.2.1, r1.2.2 ++ r2.2.2)

/-- The coinbase skip test of `_importBlock`'s input stage (sync.js lines
310-316): first input, prev index 0xFFFFFFFF, zero prev hash. -/
def isCoinbaseInput (index : Nat) (input : TxInput) : Bool :=
  index == 0 && input.outputIndex == 4294967295 && input.prevTxId == ZERO_HASH

/-- Modelled from the spec: SQL `update.history.makeInputConfirmed` - on
the history rows of output `(prevTxId, outputIndex)` set
`input_height := h`, returning their addresses. -/
def makeInputConfirmed (db : Db) (h : Int) (prevTxId : String) (outputIndex : Nat) :
    Db × List String :=
  ({ db with history := db.history.map (fun r =>
      if r.txid == prevTxId && r.index == outputIndex then
        { r with inputHeight := some h } else r) },
   (db.history.filter (fun r => r.txid == prevTxId && r.index == outputIndex)).map
     (fun r => r.address))

/-- Modelled from the spec: SQL `update.history.addConfirmedInput` - on
the history rows of output `(prevTxId, outputIndex)` set
`input_txid := txid` and `input_height := h`, returning their addresses. -/
def addConfirmedInput (db : Db) (txid : String) (h : Int) (prevTxId : String)
    (outputIndex : Nat) : Db × List String :=
  ({ db with history := db.history.map (fun r =>
      if r.txid == prevTxId && r.index == outputIndex then
        { r with inputTxId := some txid, inputHeight := some h } else r) },
   (db.history.filter (fun r => r.txid == prevTxId && r.index == outputIndex)).map
     (fun r => r.address))

/-- One input of `_importBlock`'s input stage (sync.js lines 309-338):
coinbase inputs are skipped entirely; otherwise the spent history row is
updated (height upgrade only, for pre-existing transactions) and its
addresses
broadcast. -/
def importBlockInputStep (db : Db) (txid : String) (existing : List String)
    (h : Int) (bhash : String) (c : Nat) (index : Nat) (input : TxInput) :
    Db × List Event :=
  if isCoinbaseInput index input then (db, [])
  else
    let r :=
      if existing.contains txid then
        makeInputConfirmed db h input.prevTxId input.outputIndex
      else addConfirmedInput db txid h input.prevTxId input.outputIndex
    (r.1, r.2.map (fun a =>
      Service.broadcastAddress a txid (some bhash) (some h) (JsValue.obj (some c))))

/-- The input stage over one transaction's inputs. -/
def importBlockInputsOfTxGo (txid : String) (existing : List String) (h : Int)
    (bhash : String) (c : Nat) : List (Nat × TxInput) → Db → Db × List Event
  | [], db => (db, [])
  | p :: rest, db =>
    let r1 := importBlockInputStep db txid existing h bhash c p.1 p.2
    let r2 := importBlockInputsOfTxGo txid existing h bhash c rest r1.1
    (r2.1, r1.2 ++ r2.2)

/-- The input stage over all of a block's transactions. -/
def importBlockInputsGo (existing : List String) (h : Int) (bhash : String)
    (c : Nat) : List Tx → Db → Db × List Event
  | [], db => (db, [])
  | tx :: rest, db =>
    let r1 := importBlockInputsOfTxGo tx.txid existing h bhash c tx.inputs.enum db
    let r2 := importBlockInputsGo existing h bhash c rest r1.1
    (r2.1, r1.2 ++ r2.2)

/-- sync.js `_importBlock` (lines 230-349) as the body of the enclosing
database transaction.  The block-row insert (`insert.blocks.row`) is
modelled from the spec data model: the `blocks` table is keyed by height,
so inserting at an occupied height is a unique-key violation that fails
the whole transaction. -/
def importBlock (db : Db) (block : Block) (h : Int) (c : Nat) :
    Except String (Db × List Event) :=
  if db.blocks.any (fun b => b.height == h) then
    .error "insert blocks row: duplicate key value violates unique constraint"
  else
    let db0 : Db := { db with blocks := db.blocks
      ++ [⟨h, block.hash, block.header,
            String.join (block.transactions.map (fun tx => tx.txid))⟩] }
    let r1 := importBlockTxsGo h block.hash c block.transactions db0
    let r2 := importBlockInputsGo r1.2.1 h block.hash c block.transactions r1.1
    .ok (r2.1, r1.2.2 ++ r2.2
      ++ [Service.broadcastBlock block.hash h (JsValue.obj (some c)),
          Service.addBlock block.hash (JsValue.obj (some c))])

/-- The `executeTransaction` wrapper around `_importBlock` (sync.js lines
420-423): on success the new store and the queued events become visible, on
error the transaction rolls back with nothing published. -/
def runImportBlock (db : Db) (block : Block) (h : Int) (c : Nat) :
    Db × List Event × Bool :=
  match importBlock db block h c with
  | .error _ => (db, [], false)
  | .ok r => (r.1, r.2, true)

/-! ### Mempool reconciliation - removal step (sync.js lines 452-492) -/

/-- Modelled from the spec: SQL `select.transactions.unconfirmed` - the
txids of the unconfirmed transaction rows. -/
def unconfirmedTxIds (db : Db) : List String :=
  (db.transactions.filter (fun t => t.height == none)).map (fun t => t.txid)

/-- Modelled from the spec: SQL `delete.transactions.unconfirmedByTxIds`. -/
def deleteUnconfirmedTxs (db : Db) (txids : List String) : Db :=
  { db with transactions := db.transactions.filter (fun t =>
      ! (t.height == none && txids.contains t.txid)) }

/-- Modelled from the spec: SQL `delete.history.unconfirmedByTxIds` -
delete the unconfirmed-producer history rows of the given txids. -/
def deleteUnconfirmedHistory (db : Db) (txids : List String) : Db :=
  { db with history := db.history.filter (fun r =>
      ! (r.height == none && txids.contains r.txid)) }

/-- Modelled from the spec: SQL
`update.history.deleteUnconfirmedInputsByTxIds` - null the input fields of
history rows whose unconfirmed spender is among the given txids. -/
def deleteUnconfirmedInputs (db : Db) (txids : List String) : Db :=
  { db with history := db.history.map (fun r =>
      if r.inputHeight == none && (match r.inputTxId with
          | some t => txids.contains t
          | none => false) then
        { r with inputTxId := none, inputHeight := none }
      else r) }

/-- The mempool-reconciliation removal step of `_runBlockImport` (sync.js
lines 462-478).  `rTxIds = _.difference(stored, mempool)` is mapped to
postgres bytea literals (`'\x' + txid`) before the transaction body, so the
`removeTx` publications receive the prefixed JS string verbatim, while the
SQL layer decodes the prefix back to the same txid (the modelled queries
therefore take the plain txids).  As at the `addTx` call sites,
`removeTx(txid, {client})` binds the options object to the `isConfirmed`
parameter. -/
def mempoolRemoveSection (db : Db) (nTxIds : List String) (c : Nat) :
    Db × List Event :=
  let sTxIds := unconfirmedTxIds db
  let rTxIds := sTxIds.filter (fun t => ! nTxIds.contains t)
  if rTxIds.length > 0 then
    let rPrefixed := rTxIds.map (fun t => "\\x" ++ t)
    let db1 := deleteUnconfirmedTxs db rTxIds
    let db2 := deleteUnconfirmedHistory db1 rTxIds
    let db3 := deleteUnconfirmedInputs db2 rTxIds
    (db3, rPrefixed.map (fun t =>
      Service.removeTx t (JsValue.obj (some c)) JsValue.undefined))
  else (db, [])

/-! ### Reorg rollback (sync.js lines 392-416) -/

/-- Whether an optional height lies strictly above `f`. -/
def optGt (h : Option Int) (f : Int) : Bool :=
  match h with
  | some x => decide (f < x)
  | none => false

/-- Modelled from the spec: SQL `select.fromHeight` - the block rows with
height above the argument. -/
def selectBlocksFromHeight (db : Db) (f : Int) : List BlockRow :=
  db.blocks.filter (fun b => decide (f < b.height))

/-- Modelled from the spec: SQL `delete.blocks.fromHeight`. -/
def deleteBlocksFromHeight (db : Db) (f : Int) : Db :=
  { db with blocks := db.blocks.filter (fun b => ! decide (f < b.height)) }

/-- Modelled from the spec: SQL `update.transactions.makeUnconfirmed` -
null the height of transaction rows above the fork height. -/
def makeTransactionsUnconfirmed (db : Db) (f : Int) : Db :=
  { db with transactions := db.transactions.map (fun t =>
      if optGt t.height f then { t with height := none } else t) }

/-- Modelled from the spec: SQL `update.history.makeOutputsUnconfirmed`. -/
def makeOutputsUnconfirmed (db : Db) (f : Int) : Db :=
  { db with history := db.history.map (fun r =>
      if optGt r.height f then { r with height := none } else r) }

/-- Modelled from the spec: SQL `update.history.makeInputsUnconfirmed`. -/
def makeInputsUnconfirmed (db : Db) (f : Int) : Db :=
  { db with history := db.history.map (fun r =>
      if optGt r.inputHeight f then { r with inputHeight := none } else r) }

/-- The reorg rollback of `_runBlockImport` (sync.js lines 394-415): run
under the globally exclusive `reorgLock`, inside one `executeTransaction`,
with argument `f` = fork-point height minus one: select the block rows
above `f`, delete them, null the heights of transaction rows and producer
history rows above `f`, null the input heights above `f`, and publish one
`removeblock` per selected row with the transaction client
(`removeBlock(hash, {client})` - correct two-argument call).  `inj`
injects a database error at the start of the body: the transaction rolls
back, leaving the store unchanged and nothing published. -/
def reorgRollback (db : Db) (f : Int) (c : Nat) (inj : Option String) :
    Db × List Event × Bool :=
  match inj with
  | some _ => (db, [], false)
  | none =>
    let rows := selectBlocksFromHeight db f
    let db1 := deleteBlocksFromHeight db f
    let db2 := makeTransactionsUnconfirmed db1 f
    let db3 := makeOutputsUnconfirmed db2 f
    let db4 := makeInputsUnconfirmed db3 f
    (db4, rows.map (fun b => Service.removeBlock b.hash (JsValue.obj (some c))),
     true)

/-! ### Colored-coin rescanner (the unnamed source file)

Its SQL also lives in the missing `../lib/sql`, so query effects are again
modelled from the spec.  The colored-coin libraries (`cclib`) are external
components; their color-data side effects do not touch the modelled
tables. -/

/-- An atom of the small regex language needed by the rescanner's
definition-lookup patterns: a literal character or the digit class. -/
inductive RAtom where
  | lit (c : Char)
  | digit
deriving DecidableEq, Repr

/-- A regex piece: a single atom or a one-or-more repetition. -/
inductive RPiece where
  | once (a : RAtom)
  | plus (a : RAtom)
deriving DecidableEq, Repr

/-- Parse a pattern string into pieces: a backslash-d pair forms the digit
class, and a trailing plus makes the preceding atom one-or-more. -/
def parsePat : List Char → List RPiece
  | [] => []
  | '\\' :: 'd' :: '+' :: rest => RPiece.plus RAtom.digit :: parsePat rest
  | '\\' :: 'd' :: rest => RPiece.once RAtom.digit :: parsePat rest
  | x :: '+' :: rest => RPiece.plus (RAtom.lit x) :: parsePat rest
  | x :: rest => RPiece.once (RAtom.lit x) :: parsePat rest

/-- Whether a character matches an atom (the digit class is 0-9). -/
def matchAtom : RAtom → Char → Bool
  | RAtom.lit c, x => x == c
  | RAtom.digit, x => x.isDigit

/-- One-or-more repetition of an atom followed by a continuation:
the atom must consume at least one character, then either the continuation
matches the remainder or the repetition continues. -/
def matchPlus (a : RAtom) (matchRest : List Char → Bool) : List Char → Bool
  | [] => false
  | x :: cs => matchAtom a x && (matchRest cs || matchPlus a matchRest cs)

/-- Full-string matching of a piece list, with backtracking for
repetitions. -/
def matchPieces : List RPiece → List Char → Bool
  | [], cs => cs.isEmpty
  | RPiece.once _ :: _, [] => false
  | RPiece.once a :: ps, x :: cs => matchAtom a x && matchPieces ps cs
  | RPiece.plus a :: ps, cs => matchPlus a (matchPieces ps) cs

/-- Full-string regex match of a pattern against a string. -/
def regexMatch (pat s : String) : Bool :=
  matchPieces (parsePat pat.toList) s.toList

/-- The definition-lookup pattern `removeTxs` builds for the epobc class
(unnamed source line 134).  The source writes the template literal
`epobc:<txId>:\d+:0`; JavaScript template-literal escaping replaces the
unrecognized escape sequence backslash-d by the bare character `d`, so the
string actually sent as the query parameter is `epobc:` ++ txId ++ `:d+:0`. -/
def epobcRemoveDescPattern (txId : String) : String :=
  "epobc:" ++ txId ++ ":d+:0"

/-- The pattern the specification describes for the epobc class - a digit
run in the third field - i.e. the string the source would have built had
the backslash survived. -/
def epobcSpecDescPattern (txId : String) : String :=
  "epobc:" ++ txId ++ ":\\d+:0"

/-- A color-definition row: numeric id and descriptor string. -/
structure CcDefRow where
  id : Nat
  desc : String
deriving DecidableEq, Repr

/-- A `color-scanned` (ccScannedTxIds) row. -/
structure CcScannedRow where
  txid : String
  blockhash : Option String
  height : Option Int
deriving DecidableEq, Repr

/-- The rescanner's store: color definitions, color values keyed by
(txid, color-definition class code), and the color-scanned table. -/
structure CcState where
  defs : List CcDefRow
  colorValues : List (String × String)
  scanned : List CcScannedRow
deriving DecidableEq, Repr

/-- Modelled from the spec: SQL `select.ccDefinitions.colorId` - the color
definitions whose descriptor matches the given pattern. -/
def ccSelectDefsByPattern (st : CcState) (pat : String) : List CcDefRow :=
  st.defs.filter (fun r => regexMatch pat r.desc)

/-- One txid of `removeTxs` (unnamed source lines 116-161), with the single
`epobc` branch of the switch: if the txid is color-scanned, look up a color
definition by the per-tx pattern; drop it by id when found, otherwise
remove the color values for (txid, epobc); finally delete the
color-scanned row.  Returns the new state and the `removed` boolean. -/
def ccRemoveTx (st : CcState) (txId : String) : CcState × Bool :=
  if ! st.scanned.any (fun r => r.txid == txId) then (st, false)
  else
    let rows := ccSelectDefsByPattern st (epobcRemoveDescPattern txId)
    let st1 :=
      match rows with
      | [] => { st with colorValues := st.colorValues.filter (fun cv =>
          ! (cv.1 == txId && cv.2 == "epobc")) }
      | r :: _ => { st with defs := st.defs.filter (fun d => ! (d.id == r.id)) }
    ({ st1 with scanned := st1.scanned.filter (fun r => ! (r.txid == txId)) }, true)

/-- A row of the core `blocks` table as the rescanner reads it: height,
hash, the previous-block hash from the stored header, and the contained
txids. -/
structure CoreBlockRow where
  height : Int
  hash : String
  prevHash : String
  txids : List String
deriving DecidableEq, Repr

/-- Modelled from the spec: SQL `select.blocks.txIdsByHeight` - the core
block row at a height. -/
def coreBlockAt (core : List CoreBlockRow) (h : Int) : Option CoreBlockRow :=
  core.find? (fun b => b.height == h)

/-- Modelled from the spec: SQL `select.blocks.latest` - the core block row
of maximal height. -/
def coreLatest (core : List CoreBlockRow) : Option CoreBlockRow :=
  core.foldl (fun acc b =>
    match acc with
    | none => some b
    | some a => if b.height > a.height then some b else some a) none

/-- Modelled from the spec: SQL `select.ccScannedTxIds.latestBlock` - the
(blockhash, height) of the highest confirmed color-scanned row. -/
def ccLatestBlock (rows : List CcScannedRow) : Option (String × Int) :=
  rows.foldl (fun acc r =>
    match r.blockhash, r.height with
    | some bh, some h =>
      match acc with
      | none => some (bh, h)
      | some a => if h > a.2 then some (bh, h) else some a
    | _, _ => acc) none

/-- Modelled from the spec: SQL `select.ccScannedTxIds.blockHash` - the
blockhash recorded by the rescanner at a height. -/
def ccHashAt (rows : List CcScannedRow) (h : Int) : Option String :=
  match rows.find? (fun r => r.height == some h) with
  | some r => r.blockhash
  | none => none

/-- Modelled from the spec: SQL `update.ccScannedTxIds.makeUnconfirmed` -
mark every color-scanned row above the rollback height as unconfirmed
(blockhash and height nulled). -/
def ccMakeUnconfirmed (rows : List CcScannedRow) (h : Int) : List CcScannedRow :=
  rows.map (fun r =>
    if optGt r.height h then { r with blockhash := none, height := none } else r)

/-- The walk-back loop of `updateBlocks` (unnamed source lines 196-206):
read the core block one above the cursor; stop when its stored previous
hash equals the cursor hash, otherwise step the cursor down through the
rescanner's own block mapping.  `fuel` bounds the loop; `none` models a
crash (a query returning no row) or fuel exhaustion. -/
def ccWalkBack (core : List CoreBlockRow) (cc : List CcScannedRow) :
    String → Int → Nat → Option (String × Int)
  | _, _, 0 => none
  | hash, height, fuel + 1 =>
    match coreBlockAt core (height + 1) with
    | none => none
    | some b =>
      if b.prevHash == hash then some (hash, height)
      else
        match ccHashAt cc (height - 1) with
        | none => none
        | some h2 => ccWalkBack core cc h2 (height - 1) fuel

/-- The cursor initialization plus walk-back of `updateBlocks` (unnamed
source lines 188-206): when the rescanner's height is at or above the core
tip, restart from one below the core tip through the rescanner's block
mapping; then walk back to the rollback point. -/
def ccFindRollback (core : List CoreBlockRow) (cc : List CcScannedRow)
    (latest : String × Int) (clHeight : Int) (fuel : Nat) :
    Option (String × Int) :=
  if latest.2 ≥ clHeight then
    match ccHashAt cc (clHeight - 1) with
    | none => none
    | some hsh => ccWalkBack core cc hsh (clHeight - 1) fuel
  else ccWalkBack core cc latest.1 latest.2 fuel

/-- The outcome of the first half of one `updateBlocks` transaction body:
either the rescanner is in sync, or it is about to scan the core block at
`rollbackHeight + 1` on state `ccPre` (which already reflects the reorg
unwinding when `diverged` is set). -/
inductive CcPassOutcome where
  | synced
  | scan (ccPre : List CcScannedRow) (rollbackHeight : Int)
      (rollbackHash : String) (diverged : Bool)
deriving DecidableEq, Repr

/-- The first half of one `updateBlocks` transaction body (unnamed source
lines 173-216): read the rescanner's latest scanned block and the core
latest; if their hashes are equal, stop; otherwise locate the rollback
point by walking back, and when its hash differs from the recorded latest,
mark every color-scanned row above it unconfirmed - all before any
confirmed scanning advances.  The empty-frontier branch (no confirmed
scanned row yet, lines 214-216) performs no rollback and scans block 0;
it is represented by `none` here, as are crashes and fuel exhaustion. -/
def ccUpdateBlocksPre (core : List CoreBlockRow) (cc : List CcScannedRow)
    (fuel : Nat) : Option CcPassOutcome :=
  match ccLatestBlock cc with
  | none => none
  | some latest =>
    match coreLatest core with
    | none => none
    | some cl =>
      if latest.1 == cl.hash then some CcPassOutcome.synced
      else
        match ccFindRollback core cc latest cl.height fuel with
        | none => none
        | some r =>
          if ! (r.1 == latest.1) then
            some (CcPassOutcome.scan (ccMakeUnconfirmed cc r.2) r.2 r.1 true)
          else some (CcPassOutcome.scan cc r.2 r.1 false)

/-- The confirmed-scan half of the pass (unnamed source lines 218-233):
read the core block above the rollback point; insert confirmed
color-scanned rows for its new txids and re-confirm the already-scanned
ones under the new (hash, height) in one statement
(`update.ccScannedTxIds.makeConfirmed`, modelled from the spec).  The
external color-data scan (`_cdata.fullScanTx`) has no effect on the
modelled tables. -/
def ccScanStep (core : List CoreBlockRow) (cc : List CcScannedRow) (hr : Int) :
    Option (List CcScannedRow) :=
  match coreBlockAt core (hr + 1) with
  | none => none
  | some b =>
    let toUpdate := b.txids.filter (fun t => cc.any (fun r => r.txid == t))
    let inserted := (b.txids.filter (fun t => ! cc.any (fun r => r.txid == t))).map
      (fun t => (⟨t, some b.hash, some b.height⟩ : CcScannedRow))
    some ((cc.map (fun r => if toUpdate.contains r.txid then
        { r with blockhash := some b.hash, height := some b.height } else r))
      ++ inserted)

/-- One full pass of the `updateBlocks` body: the rollback half first, the
confirmed scan only afterwards. -/
def ccUpdateBlocksPass (core : List CoreBlockRow) (cc : List CcScannedRow)
    (fuel : Nat) : Option (List CcScannedRow) :=
  match ccUpdateBlocksPre core cc fuel with
  | none => none
  | some CcPassOutcome.synced => some cc
  | some (CcPassOutcome.scan ccPre hr _ _) => ccScanStep core ccPre hr

/-- The status field of a published event (empty for channels without
one). -/
def Event.statusOf : Event → String
  | .sendTxResponse _ s _ _ _ => s
  | _ => ""

/-- The message field of a published event (empty for channels without
one). -/
def Event.messageOf : Event → String
  | .sendTxResponse _ _ _ m _ => m
  | _ => ""

end Chromanode

open Chromanode

/-- Claim C10: for every call `sendTxResponse(id, err, opts)` the published
status field is "success" iff `err` is exactly `null` (an `undefined` or
omitted `err` yields "fail"), and when `err` is `null` or has no `message`
the payload's message field is the literal string "undefined". -/
theorem sendTxResponse_status_and_message (id : String) (e : JsErr) (opts : JsValue) :
    ((Service.sendTxResponse id e opts).statusOf = "success" ↔ e = JsErr.null)
    ∧ (e = JsErr.undefined → (Service.sendTxResponse id e opts).statusOf = "fail")
    ∧ ((e = JsErr.null ∨ lodashGetMessage e = none) →
        (Service.sendTxResponse id e opts).messageOf = "undefined") := by
  refine ⟨?_, ?_, ?_⟩
  · cases e with
    | null => simp [Service.sendTxResponse, Event.statusOf]
    | undefined => simp [Service.sendTxResponse, Event.statusOf]
    | err c m => simp [Service.sendTxResponse, Event.statusOf]
  · intro h; subst h
    simp [Service.sendTxResponse, Event.statusOf]
  · intro h
    have hm : lodashGetMessage e = none := by
      rcases h with h | h
      · subst h; rfl
      · exact h
    simp [Service.sendTxResponse, Event.messageOf, hm, escapeOfGet]
    decide

/-- Witness for C10 at a concrete input: `err = null` gives status
"success" and message "undefined". -/
theorem sendTxResponse_status_and_message_witness :
    ((Service.sendTxResponse "7" JsErr.null JsValue.undefined).statusOf = "success")
    ∧ ((Service.sendTxResponse "7" JsErr.null JsValue.undefined).messageOf = "undefined") :=
  ⟨(sendTxResponse_status_and_message "7" JsErr.null JsValue.undefined).1.mpr rfl,
   (sendTxResponse_status_and_message "7" JsErr.null JsValue.undefined).2.2 (Or.inl rfl)⟩

/-! ### Lemmas about the orphan registry -/

theorem mem_lodashUnion {a b : List String} {x : String} :
    x ∈ lodashUnion a b ↔ x ∈ a ∨ x ∈ b := by
  simp only [lodashUnion, List.mem_append, List.mem_filter, Bool.not_eq_true',
    decide_eq_false_iff_not]
  tauto

theorem mem_lodashWithout {l : List String} {x y : String} :
    y ∈ lodashWithout l x ↔ y ∈ l ∧ y ≠ x := by
  simp only [lodashWithout, List.mem_filter, Bool.not_eq_true', beq_eq_false_iff_ne]

theorem lodashWithout_idem (l : List String) (x : String) :
    lodashWithout (lodashWithout l x) x = lodashWithout l x := by
  unfold lodashWithout
  rw [List.filter_filter]
  exact List.filter_congr (fun a _ => by cases h : a == x <;> simp [h])

theorem lodashUnion_single_idem (a : List String) (t : String) :
    lodashUnion (lodashUnion a [t]) [t] = lodashUnion a [t] := by
  have ht : t ∈ lodashUnion a [t] := mem_lodashUnion.mpr (Or.inr (by simp))
  conv_lhs => rw [lodashUnion]
  simp [ht]

theorem updateMap_apply (m : String → List String) (k : String) (v : List String)
    (x : String) : updateMap m k v x = if x = k then v else m x := rfl

theorem registerOrphan_orphans_fold (s : OrphanedTxState) (txid : String) :
    ∀ (l : List String) (m : String → List String),
      (∀ q, m q = s.orphans q ∨ m q = lodashUnion (s.orphans q) [txid]) →
      ∀ p, (l.foldl (fun m dep => updateMap m dep (lodashUnion (m dep) [txid])) m) p
        = if p ∈ l then lodashUnion (s.orphans p) [txid] else m p := by
  intro l
  induction l with
  | nil => intro m hm p; simp
  | cons a l ih =>
    intro m hm p
    have hma : updateMap m a (lodashUnion (m a) [txid]) a
        = lodashUnion (s.orphans a) [txid] := by
      rw [updateMap_apply, if_pos rfl]
      rcases hm a with h | h
      · rw [h]
      · rw [h, lodashUnion_single_idem]
    have hm1 : ∀ q, (updateMap m a (lodashUnion (m a) [txid])) q = s.orphans q
        ∨ (updateMap m a (lodashUnion (m a) [txid])) q
            = lodashUnion (s.orphans q) [txid] := by
      intro q
      by_cases hq : q = a
      · subst hq; exact Or.inr hma
      · rw [updateMap_apply, if_neg hq]; exact hm q
    have := ih (updateMap m a (lodashUnion (m a) [txid])) hm1 p
    rw [List.foldl_cons, this]
    by_cases hp : p ∈ l
    · rw [if_pos hp, if_pos (List.mem_cons_of_mem a hp)]
    · rw [if_neg hp]
      by_cases hpa : p = a
      · subst hpa
        rw [if_pos (List.mem_cons_self p l), hma]
      · rw [if_neg (by simp [List.mem_cons, hpa, hp]), updateMap_apply, if_neg hpa]

theorem registerOrphan_orphans (s : OrphanedTxState) (txid : String)
    (ds : List String) (p : String) :
    (registerOrphan s txid ds).orphans p =
      if p ∈ ds then lodashUnion (s.orphans p) [txid] else s.orphans p :=
  registerOrphan_orphans_fold s txid ds s.orphans (fun _ => Or.inl rfl) p

theorem importOrphanedStep_deps (txid : String) (acc : OrphanedTxState × List String)
    (a : String) :
    (importOrphanedStep txid acc a).1.deps
      = updateMap acc.1.deps a (lodashWithout (acc.1.deps a) txid) := by
  simp only [importOrphanedStep]
  split
  · rfl
  · next h =>
    have h0 : lodashWithout (acc.1.deps a) txid = [] :=
      List.length_eq_zero.mp (Nat.eq_zero_of_not_pos h)
    rw [h0]

theorem importOrphanedStep_orphans (txid : String)
    (acc : OrphanedTxState × List String) (a : String) :
    (importOrphanedStep txid acc a).1.orphans = acc.1.orphans := by
  simp only [importOrphanedStep]
  split <;> rfl

theorem importOrphaned_fold_deps (txid : String) (d0 : String → List String) :
    ∀ (l : List String) (acc : OrphanedTxState × List String),
      (∀ q, acc.1.deps q = d0 q ∨ acc.1.deps q = lodashWithout (d0 q) txid) →
      ∀ c, (l.foldl (importOrphanedStep txid) acc).1.deps c
        = if c ∈ l then lodashWithout (d0 c) txid else acc.1.deps c := by
  intro l
  induction l with
  | nil => intro acc hacc c; simp
  | cons a l ih =>
    intro acc hacc c
    have hda : (importOrphanedStep txid acc a).1.deps a = lodashWithout (d0 a) txid := by
      rw [importOrphanedStep_deps, updateMap_apply, if_pos rfl]
      rcases hacc a with h | h
      · rw [h]
      · rw [h, lodashWithout_idem]
    have hacc1 : ∀ q, (importOrphanedStep txid acc a).1.deps q = d0 q
        ∨ (importOrphanedStep txid acc a).1.deps q = lodashWithout (d0 q) txid := by
      intro q
      by_cases hq : q = a
      · subst hq; exact Or.inr hda
      · rw [importOrphanedStep_deps, updateMap_apply, if_neg hq]; exact hacc q
    have := ih (importOrphanedStep txid acc a) hacc1 c
    rw [List.foldl_cons, this]
    by_cases hc : c ∈ l
    · rw [if_pos hc, if_pos (List.mem_cons_of_mem a hc)]
    · rw [if_neg hc]
      by_cases hca : c = a
      · subst hca
        rw [if_pos (List.mem_cons_self c l), hda]
      · rw [if_neg (by simp [List.mem_cons, hca, hc]),
          importOrphanedStep_deps, updateMap_apply, if_neg hca]

theorem importOrphaned_fold_orphans (txid : String) :
    ∀ (l : List String) (acc : OrphanedTxState × List String),
      (l.foldl (importOrphanedStep txid) acc).1.orphans = acc.1.orphans := by
  intro l
  induction l with
  | nil => intro acc; rfl
  | cons a l ih =>
    intro acc
    rw [List.foldl_cons, ih, importOrphanedStep_orphans]

theorem registerOrphan_preserves_sym (s : OrphanedTxState) (txid : String)
    (ds : List String) (hsym : OrphanSym s) (hfresh : s.deps txid = []) :
    OrphanSym (registerOrphan s txid ds) := by
  intro c p
  rw [show (registerOrphan s txid ds).deps = updateMap s.deps txid ds from rfl]
  rw [registerOrphan_orphans]
  by_cases hc : c = txid
  · subst hc
    rw [updateMap_apply, if_pos rfl]
    by_cases hp : p ∈ ds
    · rw [if_pos hp]
      simp [mem_lodashUnion, hp]
    · rw [if_neg hp]
      constructor
      · intro h
        have := (hsym c p).mp h
        rw [hfresh] at this
        exact absurd this (List.not_mem_nil p)
      · intro h; exact absurd h hp
  · rw [updateMap_apply, if_neg hc]
    by_cases hp : p ∈ ds
    · rw [if_pos hp, mem_lodashUnion]
      simp only [List.mem_singleton, hc, or_false]
      exact hsym c p
    · rw [if_neg hp]
      exact hsym c p

theorem importOrphaned_preserves_sym (s2 : OrphanedTxState) (t : String)
    (hsym2 : OrphanSym s2) : OrphanSym (importOrphaned s2 t).1 := by
  intro c p
  simp only [importOrphaned]
  by_cases hch : s2.orphans t = []
  · rw [if_pos hch]
    exact hsym2 c p
  · rw [if_neg hch]
    have hdeps := importOrphaned_fold_deps t s2.deps (s2.orphans t)
      ({ s2 with orphans := updateMap s2.orphans t [] }, [])
      (fun _ => Or.inl rfl) c
    have horph := importOrphaned_fold_orphans t (s2.orphans t)
      ({ s2 with orphans := updateMap s2.orphans t [] }, [])
    rw [horph, hdeps]
    dsimp only
    by_cases hpt : p = t
    · subst hpt
      rw [updateMap_apply, if_pos rfl]
      simp only [List.not_mem_nil, false_iff]
      by_cases hc : c ∈ s2.orphans p
      · rw [if_pos hc, mem_lodashWithout]
        simp
      · rw [if_neg hc]
        intro h
        exact hc ((hsym2 c p).mpr h)
    · rw [updateMap_apply, if_neg hpt]
      by_cases hc : c ∈ s2.orphans t
      · rw [if_pos hc, mem_lodashWithout]
        simp only [hpt, ne_eq, not_false_iff, and_true]
        exact hsym2 c p
      · rw [if_neg hc]
        exact hsym2 c p

/-- Claim C6 as amended: resolution in `_importOrphaned` preserves the
symmetry invariant unconditionally, and registration by
`_importUnconfirmedTx` preserves it whenever the registered child has no
current deps entry.  The freshness hypothesis is necessary: the source can
re-register a still-pending orphan with a smaller recomputed parent set,
which breaks symmetry (see the counterexample below). -/
theorem orphanRegistry_symmetry_preserved (s : OrphanedTxState) (txid : String)
    (ds : List String) (hsym : OrphanSym s) (hfresh : s.deps txid = []) :
    OrphanSym (registerOrphan s txid ds)
    ∧ ∀ (s2 : OrphanedTxState) (t : String), OrphanSym s2 →
        OrphanSym (importOrphaned s2 t).1 :=
  ⟨registerOrphan_preserves_sym s txid ds hsym hfresh,
   fun s2 t h => importOrphaned_preserves_sym s2 t h⟩

/-- Claim C6 counterexample: symmetry is not preserved by every
registration the source performs.  From the empty registry, deferring
child "cc" on parents "aa" and "bb" yields a symmetric state.  After
"aa"'s transaction row is committed but before the deferred
`_importOrphaned "aa"` has run, a re-import of "cc" (a duplicate node tx
event, or mempool reconciliation at sync.js lines 481-483, re-schedules
it) recomputes the missing parents as just ["bb"] and line 141
unconditionally overwrites the deps entry, while "cc" still sits in
orphans "aa": the registry is asymmetric at that scheduler step
boundary. -/
theorem orphan_reregistration_breaks_symmetry :
    OrphanSym (importUnconfirmedTx emptyDb emptyOrphanState
        ⟨"cc", "rawcc", [⟨"aa", 0⟩, ⟨"bb", 0⟩], []⟩ 1 none).orph
    ∧ (importUnconfirmedTx ⟨[], [⟨"aa", "rawaa", none⟩], []⟩
        (importUnconfirmedTx emptyDb emptyOrphanState
          ⟨"cc", "rawcc", [⟨"aa", 0⟩, ⟨"bb", 0⟩], []⟩ 1 none).orph
        ⟨"cc", "rawcc", [⟨"aa", 0⟩, ⟨"bb", 0⟩], []⟩ 1 none).result = false
    ∧ ¬ OrphanSym (importUnconfirmedTx ⟨[], [⟨"aa", "rawaa", none⟩], []⟩
        (importUnconfirmedTx emptyDb emptyOrphanState
          ⟨"cc", "rawcc", [⟨"aa", 0⟩, ⟨"bb", 0⟩], []⟩ 1 none).orph
        ⟨"cc", "rawcc", [⟨"aa", 0⟩, ⟨"bb", 0⟩], []⟩ 1 none).orph := by
  refine ⟨?_, rfl, ?_⟩
  · show OrphanSym (registerOrphan emptyOrphanState "cc" ["aa", "bb"])
    exact registerOrphan_preserves_sym emptyOrphanState "cc" ["aa", "bb"]
      (fun c p => by simp [emptyOrphanState]) rfl
  · intro hsym
    have h := (hsym "cc" "aa").mp (by decide)
    exact absurd h (by decide)

/-- Witness for C6: the hypotheses hold at the empty registry with child
"aa" and parents ["bb"]. -/
theorem orphanRegistry_symmetry_preserved_witness :
    OrphanSym emptyOrphanState
    ∧ (OrphanSym (registerOrphan emptyOrphanState "aa" ["bb"])
        ∧ ∀ (s2 : OrphanedTxState) (t : String), OrphanSym s2 →
            OrphanSym (importOrphaned s2 t).1) :=
  ⟨fun c p => by simp [emptyOrphanState],
   orphanRegistry_symmetry_preserved emptyOrphanState "aa" ["bb"]
     (fun c p => by simp [emptyOrphanState]) rfl⟩

/-! ### Lemmas about `jsUniq` and the parent set -/

theorem mem_jsUniqAux {x : String} : ∀ (l seen : List String),
    x ∈ jsUniqAux seen l ↔ x ∈ l ∧ x ∉ seen := by
  intro l
  induction l with
  | nil => intro seen; simp [jsUniqAux]
  | cons a l ih =>
    intro seen
    simp only [jsUniqAux]
    by_cases ha : a ∈ seen
    · rw [if_pos ha, ih]
      constructor
      · rintro ⟨h1, h2⟩; exact ⟨List.mem_cons_of_mem a h1, h2⟩
      · rintro ⟨h1, h2⟩
        rcases List.mem_cons.mp h1 with h | h
        · subst h; exact absurd ha h2
        · exact ⟨h, h2⟩
    · rw [if_neg ha]
      constructor
      · intro h
        rcases List.mem_cons.mp h with h | h
        · subst h; exact ⟨List.mem_cons_self x l, ha⟩
        · have h2 := (ih (a :: seen)).mp h
          exact ⟨List.mem_cons_of_mem a h2.1,
            fun hx => h2.2 (List.mem_cons_of_mem a hx)⟩
      · rintro ⟨h1, h2⟩
        rcases List.mem_cons.mp h1 with h | h
        · subst h; exact List.mem_cons_self x _
        · by_cases hxa : x = a
          · subst hxa; exact List.mem_cons_self x _
          · exact List.mem_cons_of_mem a ((ih (a :: seen)).mpr
              ⟨h, fun hx => (List.mem_cons.mp hx).elim hxa h2⟩)

theorem mem_jsUniq {x : String} {l : List String} : x ∈ jsUniq l ↔ x ∈ l := by
  simp [jsUniq, mem_jsUniqAux]

theorem mem_prevTxIdsOf {tx : Tx} {p : String} :
    p ∈ prevTxIdsOf tx ↔ ∃ i ∈ tx.inputs, i.prevTxId = p := by
  simp [prevTxIdsOf, mem_jsUniq]

/-- Claim C1 (exhibiting the code bug at a concrete import): a successful
unconfirmed import of a transaction with no inputs or outputs publishes
`broadcasttx` with the transaction client but publishes `addtx` with
`unconfirmed = false` and no client at all - the call site
`addTx(txid, {client})` binds the options object to the `isConfirmed`
parameter, leaving `opts` undefined. -/
theorem importUnconfirmedTx_addtx_event_fields :
    (importUnconfirmedTx emptyDb emptyOrphanState ⟨"aa", "rawaa", [], []⟩ 7 none).events
      = [Event.broadcastTx "aa" none none (some 7), Event.addTx "aa" false none] := by
  rfl

/-- Claim C3 counterexample: the import result does not distinguish
`Imported` from `AlreadyPresent` (both resolve `true`), and a database
error during the import is consumed by the importer's catch handler and
resolves `false` - the same value as `Deferred` - instead of being
surfaced. -/
theorem importUnconfirmedTx_outcomes_not_distinguished :
    (importUnconfirmedTx ⟨[], [⟨"aa", "rawaa", some 1⟩], []⟩ emptyOrphanState
        ⟨"aa", "rawaa", [], []⟩ 1 none).result = true
    ∧ txExists ⟨[], [⟨"aa", "rawaa", some 1⟩], []⟩ "aa" = true
    ∧ (importUnconfirmedTx emptyDb emptyOrphanState
        ⟨"aa", "rawaa", [], []⟩ 1 none).result = true
    ∧ txExists emptyDb "aa" = false
    ∧ (importUnconfirmedTx emptyDb emptyOrphanState
        ⟨"aa", "rawaa", [], []⟩ 1 (some "db error")).result = false
    ∧ (importUnconfirmedTx emptyDb emptyOrphanState
        ⟨"cc", "rawcc", [⟨"bb", 0⟩], []⟩ 1 none).result = false := by
  refine ⟨rfl, rfl, rfl, rfl, rfl, rfl⟩

/-- Claim C3 as amended: the importer resolves a boolean, `true` both when
the transaction was already present and when it was imported, `false` when
deferred for missing parents; RPC/DB errors inside the import are caught,
logged, and also resolve `false` rather than being surfaced. -/
theorem importUnconfirmedTx_result_characterization (db : Db)
    (orph : OrphanedTxState) (tx : Tx) (c : Nat) (inj : Option String) :
    (importUnconfirmedTx db orph tx c inj).result = true
      ↔ (txExists db tx.txid = true
          ∨ (missingParents db tx = [] ∧ inj = none)) := by
  unfold importUnconfirmedTx
  by_cases h1 : txExists db tx.txid
  · simp [h1]
  · rw [if_neg (by simp [h1])]
    by_cases h2 : (missingParents db tx).length > 0
    · have hne : missingParents db tx ≠ [] := by
        intro h; rw [h] at h2; simp at h2
      simp [h2, h1, hne]
    · have he : missingParents db tx = [] :=
        List.length_eq_zero.mp (Nat.eq_zero_of_not_pos h2)
      cases inj with
      | none => simp [h2, h1, he]
      | some e => simp [h2, h1, he]

/-! ### Blocks-field preservation lemmas for the block-import stages -/

theorem insertConfirmedOutputsGo_blocks (txid : String) (h : Int) (bhash : String)
    (c : Nat) : ∀ (l : List (Nat × TxOutput)) (db : Db),
    (insertConfirmedOutputsGo txid h bhash c l db).1.blocks = db.blocks := by
  intro l
  induction l with
  | nil => intro db; rfl
  | cons p rest ih => intro db; exact ih _

theorem importBlockTx_blocks (db : Db) (tx : Tx) (h : Int) (bhash : String)
    (c : Nat) : (importBlockTx db tx h bhash c).1.blocks = db.blocks := by
  unfold importBlockTx
  split
  · rfl
  · exact insertConfirmedOutputsGo_blocks _ _ _ _ _ _

theorem importBlockTxsGo_blocks (h : Int) (bhash : String) (c : Nat) :
    ∀ (l : List Tx) (db : Db),
    (importBlockTxsGo h bhash c l db).1.blocks = db.blocks := by
  intro l
  induction l with
  | nil => intro db; rfl
  | cons tx rest ih =>
    intro db
    exact (ih _).trans (importBlockTx_blocks db tx h bhash c)

theorem importBlockInputStep_blocks (db : Db) (txid : String)
    (existing : List String) (h : Int) (bhash : String) (c : Nat) (index : Nat)
    (input : TxInput) :
    (importBlockInputStep db txid existing h bhash c index input).1.blocks
      = db.blocks := by
  unfold importBlockInputStep
  split
  · rfl
  · dsimp only
    split <;> rfl

theorem importBlockInputsOfTxGo_blocks (txid : String) (existing : List String)
    (h : Int) (bhash : String) (c : Nat) :
    ∀ (l : List (Nat × TxInput)) (db : Db),
    (importBlockInputsOfTxGo txid existing h bhash c l db).1.blocks = db.blocks := by
  intro l
  induction l with
  | nil => intro db; rfl
  | cons p rest ih =>
    intro db
    exact (ih _).trans (importBlockInputStep_blocks db txid existing h bhash c p.1 p.2)

theorem importBlockInputsGo_blocks (existing : List String) (h : Int)
    (bhash : String) (c : Nat) :
    ∀ (l : List Tx) (db : Db),
    (importBlockInputsGo existing h bhash c l db).1.blocks = db.blocks := by
  intro l
  induction l with
  | nil => intro db; rfl
  | cons tx rest ih =>
    intro db
    exact (ih _).trans (importBlockInputsOfTxGo_blocks tx.txid existing h bhash c _ db)

/-- Claim C5 counterexample: a transaction whose single input is a coinbase
input (zero prev hash, prev index 0xFFFFFFFF), imported through the
unconfirmed-tx path against an empty store, has the zero hash in its parent
set and is deferred as an orphan with missing parent ZERO_HASH - the
unconfirmed path performs no coinbase exclusion. -/
theorem coinbase_input_defers_unconfirmed_import :
    prevTxIdsOf ⟨"cc", "rawcc", [⟨ZERO_HASH, 4294967295⟩], []⟩ = [ZERO_HASH]
    ∧ (importUnconfirmedTx emptyDb emptyOrphanState
        ⟨"cc", "rawcc", [⟨ZERO_HASH, 4294967295⟩], []⟩ 1 none).result = false
    ∧ (importUnconfirmedTx emptyDb emptyOrphanState
        ⟨"cc", "rawcc", [⟨ZERO_HASH, 4294967295⟩], []⟩ 1 none).orph.deps "cc"
        = [ZERO_HASH] :=
  ⟨rfl, rfl, rfl⟩

/-- Claim C5 as amended: in the block import path a coinbase input is
skipped by the input stage - no history row update, no broadcast - but its
zero prev hash still appears in the block's lock key set; the
unconfirmed-tx import path has no coinbase exclusion at all: a coinbase
prev hash enters the parent set, and when no transaction row with the zero
hash exists the transaction is deferred as an orphan whose registered
missing parents include ZERO_HASH. -/
theorem coinbase_handling_amended
    (db : Db) (orph : OrphanedTxState) (tx : Tx) (c : Nat) (inj : Option String)
    (db2 : Db) (existing : List String) (h : Int) (bhash : String)
    (index : Nat) (input : TxInput) (block : Block)
    (hnotin : txExists db tx.txid = false)
    (hzero : txExists db ZERO_HASH = false)
    (hcb : ∃ i ∈ tx.inputs, i.prevTxId = ZERO_HASH)
    (hskip : isCoinbaseInput index input = true)
    (hblk : ∃ t ∈ block.transactions, ∃ i ∈ t.inputs, i.prevTxId = ZERO_HASH) :
    ZERO_HASH ∈ prevTxIdsOf tx
    ∧ (importUnconfirmedTx db orph tx c inj).result = false
    ∧ ZERO_HASH ∈ (importUnconfirmedTx db orph tx c inj).orph.deps tx.txid
    ∧ importBlockInputStep db2 tx.txid existing h bhash c index input = (db2, [])
    ∧ ZERO_HASH ∈ blockLockTxIds block := by
  have h1 : ZERO_HASH ∈ prevTxIdsOf tx := mem_prevTxIdsOf.mpr hcb
  have hmem : ZERO_HASH ∈ missingParents db tx := by
    refine List.mem_filter.mpr ⟨h1, ?_⟩
    rw [hzero]
    rfl
  have hlen : (missingParents db tx).length > 0 :=
    List.length_pos.mpr (List.ne_nil_of_mem hmem)
  have hres : importUnconfirmedTx db orph tx c inj
      = ⟨false, db, registerOrphan orph tx.txid (missingParents db tx), []⟩ := by
    unfold importUnconfirmedTx
    rw [if_neg (by simp [hnotin])]
    dsimp only
    rw [if_pos hlen]
  refine ⟨h1, by rw [hres], ?_, ?_, ?_⟩
  · rw [hres]
    show ZERO_HASH ∈ updateMap orph.deps tx.txid (missingParents db tx) tx.txid
    rw [updateMap_apply, if_pos rfl]
    exact hmem
  · unfold importBlockInputStep
    rw [if_pos hskip]
  · rcases hblk with ⟨t, ht, i, hi, hip⟩
    refine mem_jsUniq.mpr (List.mem_append.mpr (Or.inl ?_))
    refine List.mem_flatten.mpr ⟨t.inputs.map (fun i => i.prevTxId), ?_, ?_⟩
    · exact List.mem_map.mpr ⟨t, ht, rfl⟩
    · exact List.mem_map.mpr ⟨i, hi, hip⟩

/-- Witness for C5: a concrete coinbase transaction hits every hypothesis
of the amended claim. -/
theorem coinbase_handling_amended_witness :
    (txExists emptyDb "cc" = false)
    ∧ (isCoinbaseInput 0 ⟨ZERO_HASH, 4294967295⟩ = true)
    ∧ (ZERO_HASH ∈ prevTxIdsOf ⟨"cc", "rawcc", [⟨ZERO_HASH, 4294967295⟩], []⟩
        ∧ (importUnconfirmedTx emptyDb emptyOrphanState
            ⟨"cc", "rawcc", [⟨ZERO_HASH, 4294967295⟩], []⟩ 1 none).result = false
        ∧ ZERO_HASH ∈ (importUnconfirmedTx emptyDb emptyOrphanState
            ⟨"cc", "rawcc", [⟨ZERO_HASH, 4294967295⟩], []⟩ 1 none).orph.deps "cc"
        ∧ importBlockInputStep emptyDb "cc" [] 0 "bh" 1 0 ⟨ZERO_HASH, 4294967295⟩
            = (emptyDb, [])
        ∧ ZERO_HASH ∈ blockLockTxIds
            ⟨"bh", "hd", [⟨"cc", "rawcc", [⟨ZERO_HASH, 4294967295⟩], []⟩]⟩) :=
  ⟨by decide, by decide,
   coinbase_handling_amended emptyDb emptyOrphanState
     ⟨"cc", "rawcc", [⟨ZERO_HASH, 4294967295⟩], []⟩ 1 none
     emptyDb [] 0 "bh" 0 ⟨ZERO_HASH, 4294967295⟩
     ⟨"bh", "hd", [⟨"cc", "rawcc", [⟨ZERO_HASH, 4294967295⟩], []⟩]⟩
     (by decide) (by decide) (by decide) (by decide) (by decide)⟩

/-- Claim C9: importing the same block a second time, from the state the
first import produced, leaves the store bit-identical and publishes
nothing: the block-row insert violates the height key, so the second
transaction aborts and rolls back. -/
theorem importBlock_second_run_aborts_unchanged (db0 : Db) (block : Block)
    (h : Int) (c : Nat) (db1 : Db) (ev : List Event)
    (hok : runImportBlock db0 block h c = (db1, ev, true)) :
    runImportBlock db1 block h c = (db1, [], false) := by
  unfold runImportBlock at hok
  cases himp : importBlock db0 block h c with
  | error e =>
    rw [himp] at hok
    simp at hok
  | ok r =>
    rw [himp] at hok
    have hdb : db1 = r.1 := (congrArg Prod.fst hok).symm
    unfold importBlock at himp
    by_cases hcond : db0.blocks.any (fun b => b.height == h) = true
    · rw [if_pos hcond] at himp
      simp at himp
    · rw [if_neg hcond] at himp
      dsimp only at himp
      have hr := Except.ok.inj himp
      have hblocks : r.1.blocks = db0.blocks
          ++ [⟨h, block.hash, block.header,
                String.join (block.transactions.map (fun tx => tx.txid))⟩] := by
        rw [← hr]
        exact (importBlockInputsGo_blocks _ _ _ _ _ _).trans
          (importBlockTxsGo_blocks _ _ _ _ _)
      have hany : db1.blocks.any (fun b => b.height == h) = true := by
        rw [hdb, hblocks]
        simp
      unfold runImportBlock importBlock
      rw [if_pos hany]

/-- Witness for C9: importing an empty block at height 0 twice. -/
theorem importBlock_second_run_aborts_unchanged_witness :
    runImportBlock emptyDb ⟨"bb", "hh", []⟩ 0 1
      = (⟨[⟨0, "bb", "hh", ""⟩], [], []⟩,
         [Event.broadcastBlock "bb" 0 (some 1), Event.addBlock "bb" (some 1)], true)
    ∧ runImportBlock ⟨[⟨0, "bb", "hh", ""⟩], [], []⟩ ⟨"bb", "hh", []⟩ 0 1
      = (⟨[⟨0, "bb", "hh", ""⟩], [], []⟩, [], false) :=
  ⟨rfl, importBlock_second_run_aborts_unchanged emptyDb ⟨"bb", "hh", []⟩ 0 1 _ _ rfl⟩

/-- Claim C2 (exhibiting the code bug at a concrete reconciliation): with
stored unconfirmed transaction "aa" and an empty node mempool, the removal
step publishes exactly one `removetx`, but its txid field is the
bytea-prefixed string, its `unconfirmed` field is `false` (the `{client}`
object is bound to `isConfirmed`), and no client reaches `notify` (the
third argument is undefined), so the publication is not tied to the
deleting transaction. -/
theorem mempoolRemove_removetx_event_fields :
    (mempoolRemoveSection ⟨[], [⟨"aa", "rawaa", none⟩], []⟩ [] 5).2
      = [Event.removeTx "\\xaa" false none]
    ∧ (mempoolRemoveSection ⟨[], [⟨"aa", "rawaa", none⟩], []⟩ [] 5).1.transactions
      = [] :=
  ⟨rfl, rfl⟩

theorem optGt_eq_false {x : Option Int} {f : Int} (h : optGt x f = false) :
    ∀ y, x = some y → y ≤ f := by
  intro y hy
  rw [hy] at h
  simp only [optGt, decide_eq_false_iff_not] at h
  exact le_of_not_lt h

/-- Claim C7: the reorg rollback at fork height `f` succeeds with exactly
one `removeblock(hash)` per block row above `f` (carrying the transaction
client), leaves only the block rows at heights at most `f`, bounds every
remaining transaction height, history height and history input height by
`f`, and - because everything runs in one database transaction under the
reorg lock - an error leaves the store unchanged with nothing published. -/
theorem reorgRollback_effects (db : Db) (f : Int) (c : Nat) :
    ((reorgRollback db f c none).2.2 = true)
    ∧ ((reorgRollback db f c none).1.blocks
        = db.blocks.filter (fun b => decide (b.height ≤ f)))
    ∧ ((reorgRollback db f c none).2.1
        = (db.blocks.filter (fun b => decide (f < b.height))).map
            (fun b => Event.removeBlock b.hash (some c)))
    ∧ (∀ t ∈ (reorgRollback db f c none).1.transactions,
        ∀ x, t.height = some x → x ≤ f)
    ∧ (∀ r ∈ (reorgRollback db f c none).1.history,
        (∀ x, r.height = some x → x ≤ f) ∧ (∀ x, r.inputHeight = some x → x ≤ f))
    ∧ (∀ e, reorgRollback db f c (some e) = (db, [], false)) := by
  refine ⟨rfl, ?_, ?_, ?_, ?_, fun e => rfl⟩
  · show db.blocks.filter (fun b => ! decide (f < b.height)) = _
    refine List.filter_congr (fun b _ => ?_)
    by_cases hb : f < b.height
    · simp [hb, not_le.mpr hb]
    · simp [hb, le_of_not_lt hb]
  · show (selectBlocksFromHeight db f).map
        (fun b => Service.removeBlock b.hash (JsValue.obj (some c))) = _
    simp [selectBlocksFromHeight, Service.removeBlock, clientOf]
  · intro t ht x hx
    have ht2 : t ∈ (makeTransactionsUnconfirmed (deleteBlocksFromHeight db f)
        f).transactions := ht
    rcases List.mem_map.mp ht2 with ⟨t0, _, heq⟩
    cases h0 : optGt t0.height f with
    | true =>
      rw [if_pos h0] at heq
      rw [← heq] at hx
      simp at hx
    | false =>
      rw [if_neg (by simp [h0])] at heq
      rw [← heq] at hx
      exact optGt_eq_false h0 x hx
  · intro r hr
    have hr2 : r ∈ (makeInputsUnconfirmed (makeOutputsUnconfirmed
        (makeTransactionsUnconfirmed (deleteBlocksFromHeight db f) f) f) f).history := hr
    rcases List.mem_map.mp hr2 with ⟨r1, hr1, heq1⟩
    rcases List.mem_map.mp hr1 with ⟨r0, _, heq0⟩
    constructor
    · intro x hx
      have hh : r.height = r1.height := by
        rw [← heq1]
        cases h3 : optGt r1.inputHeight f <;> simp [h3]
      rw [hh] at hx
      cases h2 : optGt r0.height f with
      | true =>
        rw [if_pos h2] at heq0
        rw [← heq0] at hx
        simp at hx
      | false =>
        rw [if_neg (by simp [h2])] at heq0
        rw [← heq0] at hx
        exact optGt_eq_false h2 x hx
    · intro x hx
      have hih : r1.inputHeight = r0.inputHeight := by
        rw [← heq0]
        cases h2 : optGt r0.height f <;> simp [h2]
      cases h3 : optGt r1.inputHeight f with
      | true =>
        rw [if_pos h3] at heq1
        rw [← heq1] at hx
        simp at hx
      | false =>
        rw [if_neg (by simp [h3])] at heq1
        rw [← heq1] at hx
        rw [hih] at h3 hx
        exact optGt_eq_false h3 x hx

/-- Witness for C7: a store with one block and one confirmed transaction at
height 2, rolled back to fork height 1; the error-injected run leaves it
untouched. -/
theorem reorgRollback_effects_witness :
    ((⟨"aa", "raw", none⟩ : TxRow)
        ∈ (reorgRollback ⟨[⟨2, "b2", "h2", ""⟩], [⟨"aa", "raw", some 2⟩], []⟩
            1 3 none).1.transactions)
    ∧ reorgRollback ⟨[⟨2, "b2", "h2", ""⟩], [⟨"aa", "raw", some 2⟩], []⟩ 1 3
        (some "boom")
      = (⟨[⟨2, "b2", "h2", ""⟩], [⟨"aa", "raw", some 2⟩], []⟩, [], false) :=
  ⟨by decide,
   (reorgRollback_effects ⟨[⟨2, "b2", "h2", ""⟩], [⟨"aa", "raw", some 2⟩], []⟩
      1 3).2.2.2.2.2 "boom"⟩

/-- Claim C4 (exhibiting the code bug at a concrete input): the pattern the
source builds for txid "aa" is `epobc:aa:d+:0` - the backslash of the
intended digit class is consumed by the JS template literal - so it fails
to match the stored definition descriptor `epobc:aa:0:0` (which the
spec-described digit-run pattern does match) and instead matches a run of
the letter d; consequently `removeTxs` falls into the color-value-removal
branch and the definition row survives instead of being dropped by id. -/
theorem ccRemoveTx_epobc_regex_behavior :
    epobcRemoveDescPattern "aa" = "epobc:aa:d+:0"
    ∧ regexMatch (epobcSpecDescPattern "aa") "epobc:aa:0:0" = true
    ∧ regexMatch (epobcRemoveDescPattern "aa") "epobc:aa:0:0" = false
    ∧ regexMatch (epobcRemoveDescPattern "aa") "epobc:aa:d:0" = true
    ∧ (ccRemoveTx ⟨[⟨7, "epobc:aa:0:0"⟩], [("aa", "epobc")], [⟨"aa", none, none⟩]⟩
        "aa").1
      = ⟨[⟨7, "epobc:aa:0:0"⟩], [], []⟩ :=
  ⟨rfl, by decide, by decide, by decide, by decide⟩

theorem ccMakeUnconfirmed_bounded (rows : List CcScannedRow) (h : Int) :
    ∀ r ∈ ccMakeUnconfirmed rows h, ∀ x, r.height = some x → x ≤ h := by
  intro r hr x hx
  rcases List.mem_map.mp hr with ⟨r0, _, heq⟩
  cases h0 : optGt r0.height h with
  | true =>
    rw [if_pos h0] at heq
    rw [← heq] at hx
    simp at hx
  | false =>
    rw [if_neg (by simp [h0])] at heq
    rw [← heq] at hx
    exact optGt_eq_false h0 x hx

/-- Claim C8: whenever the walk-back of `updateBlocks` determines a
rollback point whose hash differs from the rescanner's recorded latest
scanned block, the state handed to the confirmed-scan half has every
color-scanned row with a height above the rollback height marked
unconfirmed, and the pass does advance scanning on exactly that state. -/
theorem updateBlocks_reorg_marks_unconfirmed (core : List CoreBlockRow)
    (cc ccPre : List CcScannedRow) (fuel : Nat) (hr : Int) (hsh : String)
    (hpre : ccUpdateBlocksPre core cc fuel
      = some (CcPassOutcome.scan ccPre hr hsh true)) :
    (∀ r ∈ ccPre, ∀ x, r.height = some x → x ≤ hr)
    ∧ ccUpdateBlocksPass core cc fuel = ccScanStep core ccPre hr := by
  have hmain : ccPre = ccMakeUnconfirmed cc hr := by
    unfold ccUpdateBlocksPre at hpre
    split at hpre
    · simp at hpre
    · split at hpre
      · simp at hpre
      · split at hpre
        · simp at hpre
        · split at hpre
          · simp at hpre
          · split at hpre
            · rw [Option.some.injEq, CcPassOutcome.scan.injEq] at hpre
              obtain ⟨h1, h2, _, _⟩ := hpre
              subst h2
              subst h1
              rfl
            · simp at hpre
  constructor
  · rw [hmain]
    exact ccMakeUnconfirmed_bounded cc hr
  · unfold ccUpdateBlocksPass
    rw [hpre]

/-- Witness for C8: a two-block agreement with a divergent third block; the
pass nulls the row scanned at the stale height 2 before scanning. -/
theorem updateBlocks_reorg_marks_unconfirmed_witness :
    ccUpdateBlocksPre
        [⟨0, "h0", "zz", []⟩, ⟨1, "h1", "h0", []⟩, ⟨2, "h2n", "h1", ["tt"]⟩]
        [⟨"t0", some "h0", some 0⟩, ⟨"t1", some "h1", some 1⟩,
         ⟨"t2", some "h2o", some 2⟩] 5
      = some (CcPassOutcome.scan
          [⟨"t0", some "h0", some 0⟩, ⟨"t1", some "h1", some 1⟩,
           ⟨"t2", none, none⟩] 1 "h1" true)
    ∧ (∀ r ∈ [(⟨"t0", some "h0", some 0⟩ : CcScannedRow),
        ⟨"t1", some "h1", some 1⟩, ⟨"t2", none, none⟩],
        ∀ x, r.height = some x → x ≤ 1) :=
  ⟨by decide,
   (updateBlocks_reorg_marks_unconfirmed
      [⟨0, "h0", "zz", []⟩, ⟨1, "h1", "h0", []⟩, ⟨2, "h2n", "h1", ["tt"]⟩]
      [⟨"t0", some "h0", some 0⟩, ⟨"t1", some "h1", some 1⟩,
       ⟨"t2", some "h2o", some 2⟩]
      [⟨"t0", some "h0", some 0⟩, ⟨"t1", some "h1", some 1⟩, ⟨"t2", none, none⟩]
      5 1 "h1" (by decide)).1⟩
